import Mathlib

/-! # nano-banana-imagegen: a verification development of `scripts/main.go`

The program is a command-line client: it resolves an API key and a model
identifier, builds one request, and writes the image found in the response.

Conventions of the embedding

* A Go `string` is a `Str`, a list of Unicode code points (the UTF-8 decoding
  of the Go string; every string the claims talk about is valid UTF-8).
  Byte-wise comparison of UTF-8 strings is code-point-wise comparison.
* A Go `[]byte` is a `Bytes`, a list of naturals below 256.
* Effects (files, environment, standard streams) are explicit state.
* Functions of the Go standard library (`strings`, `path/filepath`,
  `encoding/base64`, `fmt.Sscanf`, `sort.Slice`, `os.Getenv`, `os.Setenv`) are
  modelled by definitions of their own, each from the documented behaviour of
  the library function.
* A call of `fatal` ends the run: the stage returns the world at that point
  together with the reason, which stands for the message and the exit status 1.
-/

namespace NanoBanana

/-- A Go string, as its list of code points. -/
abbrev Str := List Char

/-- A Go byte slice, each element below 256. -/
abbrev Bytes := List Nat

deriving instance DecidableEq for Except

/-! ## Go standard library: `strings`, `path/filepath` -/

/-- The rune map of `unicode.ToLower`, as far as the program can observe it.
The program compares lower-cased strings with ASCII literals only, so what
matters is which runes are sent to which ASCII rune: `A`..`Z` are sent to
`a`..`z`, U+0130 to `i`, U+212A to `k`, and no other rune is sent to an ASCII
rune different from itself. Every other non-ASCII rune is sent by Go to a
non-ASCII rune; it is left in place here. -/
def toLowerRune (c : Char) : Char :=
  if 65 ≤ c.toNat ∧ c.toNat ≤ 90 then Char.ofNat (c.toNat + 32)
  else if c.toNat = 0x130 then 'i'
  else if c.toNat = 0x212A then 'k'
  else c

/-- Go `strings.ToLower`. -/
def ToLower (s : Str) : Str := s.map toLowerRune

/-- Go `unicode.IsSpace`: the Unicode White_Space property. -/
def isSpace (c : Char) : Bool :=
  let n := c.toNat
  (9 ≤ n && n ≤ 13) || n == 0x20 || n == 0x85 || n == 0xA0 || n == 0x1680 ||
  (0x2000 ≤ n && n ≤ 0x200A) || n == 0x2028 || n == 0x2029 || n == 0x202F ||
  n == 0x205F || n == 0x3000

/-- Removal of the leading and trailing runes that satisfy `p`. -/
def trimFunc (p : Char → Bool) (s : Str) : Str :=
  ((s.dropWhile p).reverse.dropWhile p).reverse

/-- Go `strings.TrimSpace`. -/
def TrimSpace (s : Str) : Str := trimFunc isSpace s

/-- Go `strings.Trim(s, cutset)`. -/
def Trim (s cutset : Str) : Str := trimFunc (fun c => decide (c ∈ cutset)) s

/-- Go `strings.HasPrefix`. -/
def HasPrefix (s p : Str) : Bool := p.isPrefixOf s

/-- Go `strings.Contains`: `sub` occurs in `s` as a contiguous block. -/
def Contains : Str → Str → Bool
  | [], sub => sub.isPrefixOf []
  | c :: cs, sub => sub.isPrefixOf (c :: cs) || Contains cs sub

/-- Go `strings.TrimPrefix`: `s` without the leading `p`, or `s` itself when
`s` does not start with `p`. -/
def trimPrefixStr (s p : Str) : Str :=
  if p.isPrefixOf s then s.drop p.length else s

/-- The backward scan of Go `filepath.Ext`: `rev` is what is left of the path
(last rune first), `acc` the runes already passed. The scan stops at a path
separator with the empty result and at a dot with the suffix from that dot. -/
def extScan : Str → Str → Str
  | [], _ => []
  | c :: rest, acc =>
    if c = '/' then []
    else if c = '.' then '.' :: acc
    else extScan rest (c :: acc)

/-- Go `filepath.Ext`: the suffix beginning at the final dot of the final
path element, empty when that element has no dot. -/
def Ext (path : Str) : Str := extScan path.reverse []

/-! ## `mimeType` -/

/-- The table `types` of `mimeType`. -/
def mimeTypes : List (Str × Str) :=
  [(".jpg".toList, "image/jpeg".toList), (".jpeg".toList, "image/jpeg".toList),
   (".png".toList, "image/png".toList), (".gif".toList, "image/gif".toList),
   (".webp".toList, "image/webp".toList), (".heic".toList, "image/heic".toList)]

/-- The function `mimeType` of `main.go`. -/
def mimeType (filename : Str) : Str :=
  match mimeTypes.lookup (ToLower (Ext filename)) with
  | some t => t
  | none => "image/jpeg".toList

/-! ## Go standard library: `encoding/base64` (`StdEncoding`) -/

/-- The alphabet of `base64.StdEncoding`. -/
def b64Alphabet : Str :=
  "ABCDEFGHIJKLMNOPQRSTUVWXYZabcdefghijklmnopqrstuvwxyz0123456789+/".toList

/-- The character of a 6-bit value (`enc.encode[v]`). -/
def encChar (v : Nat) : Char := b64Alphabet.getD v 'A'

/-- The 6-bit value of a character of the alphabet (`enc.decodeMap[c]`),
`none` for every other character. -/
def decChar (c : Char) : Option Nat :=
  let i := b64Alphabet.indexOf c
  if i < 64 then some i else none

/-- Go `base64.StdEncoding.EncodeToString`: three bytes give four characters,
a final block of one or two bytes is padded with `=`. -/
def b64Encode : Bytes → Str
  | [] => []
  | [a] =>
    let val := a * 65536
    [encChar (val / 262144 % 64), encChar (val / 4096 % 64), '=', '=']
  | [a, b] =>
    let val := a * 65536 + b * 256
    [encChar (val / 262144 % 64), encChar (val / 4096 % 64), encChar (val / 64 % 64), '=']
  | a :: b :: c :: rest =>
    let val := a * 65536 + b * 256 + c
    encChar (val / 262144 % 64) :: encChar (val / 4096 % 64) :: encChar (val / 64 % 64) ::
      encChar (val % 64) :: b64Encode rest

/-- The quanta of `Encoding.Decode`, on an input without line breaks: each
group of four alphabet characters gives three bytes; the last group may be
`xx==` (one byte) or `xxx=` (two bytes); anything else is a
`CorruptInputError` (`none`). `StdEncoding` is not strict: the unused low bits
of a padded group are not checked. -/
def decodeQuanta : Str → Option Bytes
  | a :: b :: c :: d :: rest =>
    match decChar a, decChar b with
    | some x, some y =>
      if c = '=' then
        if d = '=' ∧ rest = [] then some [(x * 262144 + y * 4096) / 65536 % 256] else none
      else
        match decChar c with
        | none => none
        | some z =>
          if d = '=' then
            if rest = [] then
              let val := x * 262144 + y * 4096 + z * 64
              some [val / 65536 % 256, val / 256 % 256]
            else none
          else
            match decChar d with
            | none => none
            | some t =>
              let val := x * 262144 + y * 4096 + z * 64 + t
              (decodeQuanta rest).map
                (fun tl => val / 65536 % 256 :: val / 256 % 256 :: val % 256 :: tl)
    | _, _ => none
  | [] => some []
  | _ => none

/-- Go `base64.StdEncoding.DecodeString`: carriage returns and line feeds are
skipped, the rest is decoded quantum by quantum; `none` is a non-nil error. -/
def b64Decode (s : Str) : Option Bytes :=
  decodeQuanta (s.filter (fun c => !(c == '\n' || c == '\r')))

/-! ## Go standard library: `fmt.Sscanf(input, "%d", &choice)` -/

/-- The decimal digits accepted by the `%d` verb. -/
def isDigit (c : Char) : Bool := 48 ≤ c.toNat && c.toNat ≤ 57

/-- The value of a run of decimal digits. -/
def digitsValue (ds : Str) : Nat :=
  ds.foldl (fun acc c => acc * 10 + (c.toNat - 48)) 0

/-- The method `SkipSpace` of the scanner of `Sscanf`: blanks are skipped, a
line feed is the error "unexpected newline" (`none`), a carriage return right
before a line feed is skipped. -/
def skipSpace : Str → Option Str
  | [] => some []
  | c :: cs =>
    if c = '\r' ∧ cs.head? = some '\n' then skipSpace cs
    else if c = '\n' then none
    else if isSpace c then skipSpace cs
    else some (c :: cs)

/-- The token of `scanInt` after the optional sign: `neg` tells whether the
sign was `-`. The token is the longest run of digits; an empty run is the
error "expected integer", a value outside the 64-bit `int` is a range error. -/
def scanDigits (neg : Bool) (s : Str) : Option Int :=
  let ds := s.takeWhile isDigit
  if ds = [] then none
  else if neg then
    if digitsValue ds ≤ 2 ^ 63 then some (-(digitsValue ds : Int)) else none
  else
    if digitsValue ds < 2 ^ 63 then some (digitsValue ds : Int) else none

/-- Go `fmt.Sscanf(input, "%d", &choice)`: `some k` when the call returns a nil
error having stored `k`, `none` when it returns an error. Whatever follows the
digits is left unread and is not an error. -/
def sscanfInt (input : Str) : Option Int :=
  match skipSpace input with
  | none => none
  | some [] => none
  | some (c :: cs) =>
    if c = '+' then scanDigits false cs
    else if c = '-' then scanDigits true cs
    else scanDigits false (c :: cs)

/-! ## The state the program acts on -/

/-- What a call of `os.WriteFile` on the output path does: it completes, the
file then holding the data, or it returns an error, the file then holding
`left` (the call opens the file with truncation before it writes, so a call
that fails may leave the file as it was, empty, or with part of the data). -/
inductive WriteOutcome where
  | done
  | failed (left : Option Bytes)

/-- What the program can read and change. The config store is the pair of
files `model` and `last-output` under `configDir`; a file that cannot be read
is `none`. The file system decides what a write does: `modelWrite`,
`lastWrite` and `outWrite` say it for the three files. The output path is
taken to be a file outside the config store. -/
structure World where
  /-- Content of `configDir/model`. -/
  cfgModel : Option Str
  /-- Content of `configDir/last-output`. -/
  cfgLast : Option Str
  /-- Content of `configDir/model` after `os.MkdirAll(configDir)` and
  `os.WriteFile(modelPath, data)`, from the content before and the data:
  `some data` when the write succeeds, anything else when it fails. -/
  modelWrite : Option Str → Str → Option Str
  /-- Content of `configDir/last-output` after `os.MkdirAll(configDir)` and
  `os.WriteFile` of the data, from the content before and the data. -/
  lastWrite : Option Str → Str → Option Str
  /-- Content of the file at the output path. -/
  outFile : Option Bytes
  /-- What `os.WriteFile` on the output path does, from the number of writes
  completed before it, the content before and the data. -/
  outWrite : Nat → Option Bytes → Bytes → WriteOutcome
  /-- Number of completed writes to the output path. -/
  writes : Nat
  /-- Lines printed on standard output, oldest first. -/
  stdout : List Str
  /-- Messages printed on standard error, oldest first. -/
  stderr : List Str
  /-- What is left to read on standard input. -/
  stdin : Str
  /-- How much of standard input after the first line a buffered reader has
  taken by the time that line is complete (its reads fill a buffer, and what
  the buffer holds beyond the line is lost with the reader). -/
  readAhead : Nat
  /-- Number of requests sent to the catalog endpoint. -/
  catalogCalls : Nat

/-- The reasons for which the program stops with `fatal` (message on standard
error, exit status 1) or for which a function returns a non-nil error. -/
inductive Failure where
  /-- "Cannot read input image". -/
  | cannotReadInput (path : Str)
  /-- "Failed to decode image". -/
  | decodeImage
  /-- "Failed to write output". -/
  | writeOutput
  /-- "No image in response" followed by the raw response body. -/
  | noImageInResponse (body : Str)
  /-- The HTTP request itself failed. -/
  | transport
  /-- "API error", with the status and the body. -/
  | apiError (status : Nat) (body : Str)
  /-- The body is not the expected JSON. -/
  | badJson
  /-- "no image generation models found". -/
  | catalogEmpty
  /-- "invalid selection". -/
  | selectionInvalid
deriving DecidableEq

/-- What a remote call gives: a transport error, or a status and a body, with
the result of `json.Unmarshal` on that body (`none` when it fails). -/
inductive Reply (α : Type) where
  | transportError
  | response (status : Nat) (body : Str) (decoded : Option α)

/-! ## Output Writer (`main`, the loop over `result.Candidates`) -/

/-- A part of a candidate, as decoded: `Text` and the `Data` of `InlineData`
when that pointer is not nil. -/
structure Part where
  text : Str
  inlineData : Option Str
deriving DecidableEq

/-- A candidate of the response: `Content.Parts`. -/
structure Candidate where
  parts : List Part
deriving DecidableEq

/-- The function `saveLastOutput`: the errors of `os.MkdirAll` and
`os.WriteFile` are discarded, the file holds what the file system leaves. -/
def saveLastOutput (w : World) (path : Str) : World :=
  { w with cfgLast := w.lastWrite w.cfgLast path }

/-- The body of the inner loop for one part. `Except.error` is a call of
`fatal`: the world at the exit and the reason. The Boolean is `saved`. The
call of `os.MkdirAll` only prepares the directory of the output path, its
error discarded: what it does shows in what the write does. -/
def partStep (outputPath : Str) (s : World × Bool) (part : Part) :
    Except (World × Failure) (World × Bool) :=
  let w1 : World :=
    if part.text ≠ [] then
      { s.1 with stderr := s.1.stderr ++ ["Response: ".toList ++ part.text ++ "\n".toList] }
    else s.1
  match part.inlineData with
  | none => .ok (w1, s.2)
  | some data =>
    match b64Decode data with
    | none => .error (w1, Failure.decodeImage)
    | some imgData =>
      match w1.outWrite w1.writes w1.outFile imgData with
      | .failed left => .error ({ w1 with outFile := left }, Failure.writeOutput)
      | .done =>
        let w2 : World := { w1 with outFile := some imgData, writes := w1.writes + 1 }
        let w3 := saveLastOutput w2 outputPath
        .ok ({ w3 with stdout := w3.stdout ++ [outputPath] }, true)

/-- The inner loop, over the parts of one candidate. -/
def partsLoop (outputPath : Str) :
    List Part → World × Bool → Except (World × Failure) (World × Bool)
  | [], s => .ok s
  | p :: ps, s =>
    match partStep outputPath s p with
    | .error e => .error e
    | .ok s1 => partsLoop outputPath ps s1

/-- The outer loop, over the candidates. -/
def candsLoop (outputPath : Str) :
    List Candidate → World × Bool → Except (World × Failure) (World × Bool)
  | [], s => .ok s
  | c :: cs, s =>
    match partsLoop outputPath c.parts s with
    | .error e => .error e
    | .ok s1 => candsLoop outputPath cs s1

/-- The Output Writer of `main`: `saved := false`, the two loops, and the
final test of `saved`. The result is the world when the stage ends and `none`
for a normal end, `some f` for an exit through `fatal`. -/
def outputWriter (outputPath body : Str) (candidates : List Candidate) (w : World) :
    World × Option Failure :=
  match candsLoop outputPath candidates (w, false) with
  | .error (w1, f) => (w1, some f)
  | .ok (w1, saved) =>
    if saved then (w1, none) else (w1, some (Failure.noImageInResponse body))

/-! ## Request Builder (`main`, "Build request") -/

/-- An element of the list `parts` of the request: the map with the key `text`,
or the map with the key `inlineData` holding `mimeType` and `data`. -/
inductive ReqPart where
  | text (t : Str)
  | inlineData (mimeType data : Str)
deriving DecidableEq

/-- The construction of `parts` in `main`. `readFile` is `os.ReadFile` on the
file system of the run (`none` for an error); `input` is the value of `*input`
when the stage starts, empty when no input image is given. -/
def buildParts (readFile : Str → Option Bytes) (promptText input : Str) (w : World) :
    Except Failure (List ReqPart) × World :=
  let parts := [ReqPart.text promptText]
  if input ≠ [] then
    match readFile input with
    | none => (.error (Failure.cannotReadInput input), w)
    | some imgData =>
      (.ok (parts ++ [ReqPart.inlineData (mimeType input) (b64Encode imgData)]),
        { w with stderr := w.stderr ++ ["Input: ".toList ++ input ++ "\n".toList] })
  else (.ok parts, w)

/-! ## Model Selector (`listImageModels`, `getModel`, `cacheModel`) -/

/-- The type `Model` of `main.go`. -/
structure Model where
  name : Str
  displayName : Str
  description : Str
  supportedGenerationMethods : List Str
deriving DecidableEq

/-- Go `<` on strings: lexicographic on the bytes, which for UTF-8 is
lexicographic on the code points. -/
def strLess : Str → Str → Bool
  | [], [] => false
  | [], _ :: _ => true
  | _ :: _, [] => false
  | a :: as, b :: bs =>
    if a.toNat < b.toNat then true
    else if b.toNat < a.toNat then false
    else strLess as bs

/-- The filter loop of `listImageModels`; `imageModels` is the slice built so
far. -/
def filterLoop : List Model → List Model → List Model
  | [], imageModels => imageModels
  | m :: ms, imageModels =>
    let name := ToLower m.name
    let desc := ToLower m.description
    if Contains name "image".toList || Contains desc "image generation".toList ||
        Contains desc "generate images".toList then
      filterLoop ms (imageModels ++ [{ m with name := trimPrefixStr m.name "models/".toList }])
    else filterLoop ms imageModels

/-- Insertion of `m` in a list sorted by name, before the first element whose
name is not below the name of `m`. -/
def insertByName (m : Model) : List Model → List Model
  | [] => [m]
  | x :: xs => if strLess x.name m.name then x :: insertByName m xs else m :: x :: xs

/-- The call `sort.Slice(imageModels, less)` with `less` comparing the names:
the slice reordered so that no element has a name below the name of an earlier
one. The order Go gives to elements of equal name is not specified; this
sort keeps them in their order. -/
def sortByName : List Model → List Model
  | [] => []
  | m :: ms => insertByName m (sortByName ms)

/-- The function `listImageModels`, on the reply of the catalog endpoint. -/
def listImageModels (reply : Reply (List Model)) : Except Failure (List Model) :=
  match reply with
  | .transportError => .error Failure.transport
  | .response status body decoded =>
    if status ≠ 200 then .error (Failure.apiError status body)
    else
      match decoded with
      | none => .error Failure.badJson
      | some models => .ok (sortByName (filterLoop models []))

/-- The function `cacheModel`: the errors of `os.MkdirAll` and `os.WriteFile`
are discarded, the file holds what the file system leaves. -/
def cacheModel (w : World) (model : Str) : World :=
  { w with cfgModel := w.modelWrite w.cfgModel model }

/-- The call `reader.ReadString('\n')` on a fresh reader of standard input:
the text up to and including the first line feed (all of it when there is
none) and what is left. -/
def readLine : Str → Str × Str
  | [] => ([], [])
  | c :: cs =>
    if c = '\n' then ([c], cs)
    else ((c :: (readLine cs).1), (readLine cs).2)

/-- The lines `  [i] name` printed for the models, numbered from `i + 1`. -/
def listing : Nat → List Model → List Str
  | _, [] => []
  | i, m :: ms =>
    ("  [".toList ++ (Nat.repr (i + 1)).toList ++ "] ".toList ++ m.name ++ "\n".toList) ::
      listing (i + 1) ms

/-- The world of `getModel` once the catalog has been asked for: the notice on
standard error and one request sent. -/
def fetchingWorld (w : World) : World :=
  { w with stderr := w.stderr ++ ["Fetching available image models...\n".toList],
           catalogCalls := w.catalogCalls + 1 }

/-- The world of `getModel` once the numbered list and the prompt have been
printed and a line has been read from standard input through
`bufio.NewReader(os.Stdin)`: the line is gone from standard input, and so is
what the reader had taken beyond it. -/
def promptedWorld (models : List Model) (w : World) : World :=
  { w with stderr := w.stderr ++ ["\nAvailable image generation models:\n".toList] ++
             listing 0 models ++ ["\nSelect model number: ".toList],
           stdin := (readLine w.stdin).2.drop w.readAhead }

/-- The function `getModel`; `catalog` is what the catalog endpoint replies if
asked. The result is the returned pair (identifier or error) and the world
after the call. -/
def getModel (catalog : Reply (List Model)) (flagModel : Str) (w : World) :
    Except Failure Str × World :=
  if flagModel ≠ [] then (.ok flagModel, cacheModel w flagModel)
  else
    let cached : Option Str :=
      match w.cfgModel with
      | none => none
      | some data => if TrimSpace data ≠ [] then some (TrimSpace data) else none
    match cached with
    | some model => (.ok model, w)
    | none =>
      let w1 := fetchingWorld w
      match listImageModels catalog with
      | .error e => (.error e, w1)
      | .ok models =>
        if models.length = 0 then (.error Failure.catalogEmpty, w1)
        else
          let w2 := promptedWorld models w1
          let input := TrimSpace (readLine w1.stdin).1
          match sscanfInt input with
          | none => (.error Failure.selectionInvalid, w2)
          | some choice =>
            if choice < 1 ∨ choice > (models.length : Int) then
              (.error Failure.selectionInvalid, w2)
            else
              match models.get? (choice - 1).toNat with
              | none => (.error Failure.selectionInvalid, w2)
              | some m => (.ok m.name, cacheModel w2 m.name)

/-! ## Credential Resolver (`loadEnvFile`) -/

/-- The process environment: the value of each variable that is set. -/
abbrev Env := Str → Option Str

/-- Go `os.Getenv`: the value, empty when the variable is not set. -/
def Getenv (env : Env) (key : Str) : Str := (env key).getD []

/-- Go `os.Setenv`, its error discarded as `loadEnvFile` does: an empty key, a
key with `=` or NUL, and a value with NUL are refused (`EINVAL`) and leave the
environment as it is. -/
def Setenv (env : Env) (key value : Str) : Env :=
  if key = [] ∨ '=' ∈ key ∨ Char.ofNat 0 ∈ key ∨ Char.ofNat 0 ∈ value then env
  else fun k => if k = key then some value else env k

/-- Go `strings.Split(s, "\n")`. -/
def splitLines : Str → List Str
  | [] => [[]]
  | c :: cs =>
    if c = '\n' then [] :: splitLines cs
    else
      match splitLines cs with
      | [] => [[c]]
      | l :: ls => (c :: l) :: ls

/-- The reading of one line of the file in `loadEnvFile`: `none` for a line
that is skipped (blank, comment, no `=` or `=` in first position), otherwise
the key and the value, trimmed, the value without its surrounding quotes. -/
def parseEnvLine (raw : Str) : Option (Str × Str) :=
  let line := TrimSpace raw
  if line = [] ∨ HasPrefix line "#".toList then none
  else
    let idx := line.indexOf '='
    if 0 < idx ∧ idx < line.length then
      some (TrimSpace (line.take idx),
        Trim (TrimSpace (line.drop (idx + 1))) "\"'".toList)
    else none

/-- The body of the loop over the lines of the file. -/
def envLine (env : Env) (raw : Str) : Env :=
  match parseEnvLine raw with
  | none => env
  | some (key, val) => if Getenv env key = [] then Setenv env key val else env

/-- The function `loadEnvFile`. The list holds, for the working directory and
then each of its ancestors up to the root, what `os.ReadFile` gives for the
`.env` of that directory (`none` for an error). The first file read is the one
used. -/
def loadEnvFile : List (Option Str) → Env → Env
  | [], env => env
  | some data :: _, env => (splitLines data).foldl envLine env
  | none :: up, env => loadEnvFile up env

/-! ## Vocabulary of the claims on the Model Selector -/

/-- The catalog filter in the words of the specification: the identifier or
the description mentions image generation, letter case ignored. -/
def mentionsImageGeneration (m : Model) : Bool :=
  Contains (ToLower m.name) "image".toList ||
  Contains (ToLower m.description) "image generation".toList ||
  Contains (ToLower m.description) "generate images".toList

/-- The entry with a leading `models/` removed from its identifier, the other
fields as they are. -/
def stripModels (m : Model) : Model :=
  { m with name := trimPrefixStr m.name "models/".toList }

/-- A decimal integer: one or more digits and nothing else. -/
def isDecimal (s : Str) : Bool := s ≠ [] && s.all isDigit

/-- A reply of the catalog endpoint with five image models, out of order, and
one model that is not an image model. -/
def sampleCatalog : Reply (List Model) :=
  .response 200 [] (some
    [⟨"models/imagen-4".toList, [], [], []⟩,
     ⟨"models/gemini-image-c".toList, [], [], []⟩,
     ⟨"models/text-only".toList, [], "Text model".toList, []⟩,
     ⟨"models/gemini-image-a".toList, [], [], []⟩,
     ⟨"models/painter".toList, [], "Can Generate Images".toList, []⟩,
     ⟨"models/gemini-image-b".toList, [], [], []⟩])

/-- The five image models of `sampleCatalog`, as `listImageModels` returns
them. -/
def sampleModels : List Model :=
  [⟨"gemini-image-a".toList, [], [], []⟩,
   ⟨"gemini-image-b".toList, [], [], []⟩,
   ⟨"gemini-image-c".toList, [], [], []⟩,
   ⟨"imagen-4".toList, [], [], []⟩,
   ⟨"painter".toList, [], "Can Generate Images".toList, []⟩]

/-! ## Vocabulary of the claims on the Credential Resolver -/

/-- The `.env` file that `loadEnvFile` uses: the first one that can be read,
going from the working directory up to the root. -/
def discoveredFile : List (Option Str) → Option Str
  | [] => none
  | some data :: _ => some data
  | none :: up => discoveredFile up

/-- An environment in which `API_HOST` is set to a non-empty value and
`GEMINI_API_KEY` is set to the empty string. -/
def sampleEnv : Env := fun k =>
  if k = "API_HOST".toList then some "example.org".toList
  else if k = "GEMINI_API_KEY".toList then some []
  else none

/-- A `.env` file with a comment and a line for each variable of `sampleEnv`. -/
def sampleDotEnv : Str :=
  "# keys\nAPI_HOST=other.example\nGEMINI_API_KEY=\"abc\"\n".toList

/-! ## Vocabulary of the claims on the Output Writer -/

/-- All parts of a response, in scanning order. -/
def allParts : List Candidate → List Part
  | [] => []
  | c :: cs => c.parts ++ allParts cs

/-- The base64 payloads of the parts that carry inline data, in order. -/
def inlinePayloads (ps : List Part) : List Str := ps.filterMap (fun p => p.inlineData)

/-- The progress messages of the parts with a non-empty text, in order. -/
def progressMessages (ps : List Part) : List Str :=
  (ps.filter (fun p => p.text ≠ [])).map
    (fun p => "Response: ".toList ++ p.text ++ "\n".toList)

/-- A world with an output file already in place, in which every write
succeeds. -/
def sampleWorld : World :=
  { cfgModel := none, cfgLast := some "/tmp/old.png".toList,
    modelWrite := fun _ data => some data, lastWrite := fun _ data => some data,
    outFile := some [1, 2, 3], outWrite := fun _ _ _ => WriteOutcome.done,
    writes := 0, stdout := [], stderr := [], stdin := [], readAhead := 0,
    catalogCalls := 0 }

/-- A world whose config store holds the model `bar` and cannot be written:
a write leaves the file as it was. -/
def readOnlyStoreWorld : World :=
  { sampleWorld with cfgModel := some "bar".toList, modelWrite := fun before _ => before }

/-- Two candidates; only the second part of the second one carries an image
(the base64 of the byte 65). -/
def oneImageResponse : List Candidate :=
  [⟨[⟨"thinking".toList, none⟩]⟩,
   ⟨[⟨"here it is".toList, none⟩, ⟨[], some "QQ==".toList⟩]⟩]

/-- Two candidates with one image each: the bytes 65 and 66. -/
def twoImageResponse : List Candidate :=
  [⟨[⟨[], some "QQ==".toList⟩]⟩, ⟨[⟨[], some "Qg==".toList⟩]⟩]

theorem partsLoop_append (out : Str) (ps qs : List Part) (s : World × Bool) :
    partsLoop out (ps ++ qs) s =
      match partsLoop out ps s with
      | .error e => .error e
      | .ok s1 => partsLoop out qs s1 := by
  induction ps generalizing s with
  | nil => simp [partsLoop]
  | cons p ps ih =>
    simp only [List.cons_append, partsLoop]
    cases h : partStep out s p with
    | error e => simp
    | ok s1 => simpa using ih s1

theorem candsLoop_eq (out : Str) (cs : List Candidate) (s : World × Bool) :
    candsLoop out cs s = partsLoop out (allParts cs) s := by
  induction cs generalizing s with
  | nil => simp [candsLoop, allParts, partsLoop]
  | cons c cs ih =>
    simp only [candsLoop, allParts, partsLoop_append]
    cases h : partsLoop out c.parts s with
    | error e => simp
    | ok s1 => simpa using ih s1

/-- What one step does to a part without inline data. -/
theorem partStep_text (out : Str) (w : World) (sv : Bool) (p : Part) (h : p.inlineData = none) :
    partStep out (w, sv) p =
      .ok ({ w with stderr := w.stderr ++ progressMessages [p] }, sv) := by
  unfold partStep
  by_cases ht : p.text = [] <;> simp [h, ht, progressMessages]

theorem partStep_image (out : Str) (w : World) (sv : Bool) (p : Part) (d : Str) (img : Bytes)
    (h : p.inlineData = some d) (hd : b64Decode d = some img)
    (hw : w.outWrite w.writes w.outFile img = WriteOutcome.done) :
    partStep out (w, sv) p =
      .ok ({ w with stderr := w.stderr ++ progressMessages [p], outFile := some img,
                    writes := w.writes + 1, cfgLast := w.lastWrite w.cfgLast out,
                    stdout := w.stdout ++ [out] }, true) := by
  unfold partStep
  by_cases ht : p.text = [] <;> simp [h, ht, hd, hw, progressMessages, saveLastOutput]

theorem partStep_decode_fail (out : Str) (w : World) (sv : Bool) (p : Part) (d : Str)
    (h : p.inlineData = some d) (hd : b64Decode d = none) :
    partStep out (w, sv) p =
      .error ({ w with stderr := w.stderr ++ progressMessages [p] }, Failure.decodeImage) := by
  unfold partStep
  by_cases ht : p.text = [] <;> simp [h, ht, hd, progressMessages]

theorem partStep_write_fail (out : Str) (w : World) (sv : Bool) (p : Part) (d : Str)
    (img : Bytes) (left : Option Bytes)
    (h : p.inlineData = some d) (hd : b64Decode d = some img)
    (hw : w.outWrite w.writes w.outFile img = WriteOutcome.failed left) :
    partStep out (w, sv) p =
      .error ({ w with stderr := w.stderr ++ progressMessages [p], outFile := left },
        Failure.writeOutput) := by
  unfold partStep
  by_cases ht : p.text = [] <;> simp [h, ht, hd, hw, progressMessages]

/-- The world after a run of the loop over `ps` that reaches its end. -/
theorem partsLoop_ok (out : Str) (ps : List Part) (w w1 : World) (sv sv1 : Bool)
    (h : partsLoop out ps (w, sv) = .ok (w1, sv1)) :
    w1.writes = w.writes + (inlinePayloads ps).length ∧
    w1.stdout = w.stdout ++ List.replicate (inlinePayloads ps).length out ∧
    w1.outFile = (match (inlinePayloads ps).getLast? with
                  | none => w.outFile
                  | some d => b64Decode d) ∧
    (inlinePayloads ps = [] → w1.cfgLast = w.cfgLast) ∧
    sv1 = (sv || !(inlinePayloads ps).isEmpty) ∧
    w1.stderr = w.stderr ++ progressMessages ps ∧
    w1.cfgModel = w.cfgModel ∧ w1.outWrite = w.outWrite ∧
    w1.stdin = w.stdin ∧ w1.catalogCalls = w.catalogCalls ∧
    (∀ d ∈ inlinePayloads ps, b64Decode d ≠ none) ∧
    (w1.modelWrite = w.modelWrite ∧ w1.lastWrite = w.lastWrite) := by
  induction ps generalizing w sv with
  | nil =>
    simp only [partsLoop, Except.ok.injEq, Prod.mk.injEq] at h
    obtain ⟨rfl, rfl⟩ := h
    simp [inlinePayloads, progressMessages]
  | cons p ps ih =>
    cases hp : p.inlineData with
    | none =>
      rw [partsLoop, partStep_text out w sv p hp] at h
      have := ih _ _ h
      have e1 : inlinePayloads (p :: ps) = inlinePayloads ps := by
        simp [inlinePayloads, List.filterMap_cons, hp]
      have e2 : progressMessages (p :: ps) = progressMessages [p] ++ progressMessages ps := by
        simp only [progressMessages]
        rw [← List.map_append, ← List.filter_append]; rfl
      rw [e1, e2]
      simpa [List.append_assoc] using this
    | some d =>
      have e1 : inlinePayloads (p :: ps) = d :: inlinePayloads ps := by
        simp [inlinePayloads, List.filterMap_cons, hp]
      have e2 : progressMessages (p :: ps) = progressMessages [p] ++ progressMessages ps := by
        simp only [progressMessages]
        rw [← List.map_append, ← List.filter_append]; rfl
      cases hdec : b64Decode d with
      | none =>
        rw [partsLoop, partStep_decode_fail out w sv p d hp hdec] at h
        simp at h
      | some img =>
        cases hw : w.outWrite w.writes w.outFile img with
        | failed left =>
          rw [partsLoop, partStep_write_fail out w sv p d img left hp hdec hw] at h
          simp at h
        | done =>
          rw [partsLoop, partStep_image out w sv p d img hp hdec hw] at h
          have := ih _ _ h
          rw [e1, e2]
          obtain ⟨h1, h2, h3, -, h5, h6, h7, h8, h9, h10, h11, h12⟩ := this
          simp only at h1 h2 h3 h5 h6 h7 h8 h9 h10 h12
          refine ⟨?_, ?_, ?_, ?_, ?_, ?_, h7, h8, h9, h10, ?_, h12⟩
          · rw [h1]; simp; omega
          · rw [h2]; simp [List.replicate_succ]
          · rw [h3]
            cases hq : inlinePayloads ps with
            | nil => simp [hdec]
            | cons q qs => simp [List.getLast?_eq_getLast _ (List.cons_ne_nil q qs)]
          · intro hnil; simp at hnil
          · rw [h5]; simp
          · rw [h6]; simp [List.append_assoc]
          · intro x hx
            rcases List.mem_cons.mp hx with rfl | hx
            · rw [hdec]; simp
            · exact h11 x hx

/-- The world at a `fatal` inside the loop: the loop ran to its end over the
parts `pre` before the failing part `p`, whose payload does not decode or
cannot be written. What the output file holds is known when the failure is
the decoding; a write that fails leaves what the file system leaves. -/
theorem partsLoop_error (out : Str) (ps : List Part) (w w1 : World) (sv : Bool) (f : Failure)
    (h : partsLoop out ps (w, sv) = .error (w1, f)) :
    ∃ pre p post d, ps = pre ++ p :: post ∧ p.inlineData = some d ∧
      (f = Failure.decodeImage ∨ f = Failure.writeOutput) ∧
      (f = Failure.decodeImage ↔ b64Decode d = none) ∧
      w1.writes = w.writes + (inlinePayloads pre).length ∧
      w1.stdout = w.stdout ++ List.replicate (inlinePayloads pre).length out ∧
      (f = Failure.decodeImage →
        w1.outFile = (match (inlinePayloads pre).getLast? with
                      | none => w.outFile
                      | some x => b64Decode x)) ∧
      (inlinePayloads pre = [] → w1.cfgLast = w.cfgLast) ∧
      w1.cfgModel = w.cfgModel := by
  induction ps generalizing w sv with
  | nil => simp [partsLoop] at h
  | cons p ps ih =>
    rw [partsLoop] at h
    cases hs : partStep out (w, sv) p with
    | ok s1 =>
      rw [hs] at h
      obtain ⟨w2, sv2⟩ := s1
      have hone : partsLoop out [p] (w, sv) = .ok (w2, sv2) := by
        simp [partsLoop, hs]
      obtain ⟨a1, a2, a3, a4, -, -, a7, -, -, -, -, -⟩ := partsLoop_ok out [p] w w2 sv sv2 hone
      obtain ⟨pre, q, post, d, e, hq, hkind, hf, b1, b2, b3, b4, b5⟩ := ih w2 sv2 h
      have hpre : inlinePayloads (p :: pre) = inlinePayloads [p] ++ inlinePayloads pre := by
        simp only [inlinePayloads]
        rw [← List.filterMap_append]; rfl
      refine ⟨p :: pre, q, post, d, by simp [e], hq, hkind, hf, ?_, ?_, ?_, ?_, ?_⟩
      · rw [b1, a1, hpre, List.length_append]; omega
      · rw [b2, a2, hpre, List.length_append, List.replicate_add, List.append_assoc]
      · intro hfd
        rw [b3 hfd, hpre]
        cases hq2 : inlinePayloads pre with
        | nil => rw [List.append_nil]; exact a3 ▸ rfl
        | cons x xs =>
          have : (inlinePayloads [p] ++ x :: xs).getLast? = (x :: xs).getLast? := by
            rw [List.getLast?_append_of_ne_nil _ (List.cons_ne_nil x xs)]
          rw [this]
          simp [List.getLast?_eq_getLast _ (List.cons_ne_nil x xs)]
      · intro hnil
        rw [hpre] at hnil
        obtain ⟨hn1, hn2⟩ := List.append_eq_nil.mp hnil
        rw [b4 hn2, a4 hn1]
      · rw [b5, a7]
    | error e =>
      rw [hs] at h
      simp only [Except.error.injEq] at h
      subst h
      cases hp : p.inlineData with
      | none => rw [partStep_text out w sv p hp] at hs; simp at hs
      | some d =>
        cases hdec : b64Decode d with
        | none =>
          rw [partStep_decode_fail out w sv p d hp hdec] at hs
          simp only [Except.error.injEq, Prod.mk.injEq] at hs
          obtain ⟨rfl, rfl⟩ := hs
          exact ⟨[], p, ps, d, by simp, hp, Or.inl rfl, by simp [hdec],
            by simp [inlinePayloads], by simp [inlinePayloads],
            by simp [inlinePayloads], by simp [inlinePayloads], rfl⟩
        | some img =>
          cases hw : w.outWrite w.writes w.outFile img with
          | failed left =>
            rw [partStep_write_fail out w sv p d img left hp hdec hw] at hs
            simp only [Except.error.injEq, Prod.mk.injEq] at hs
            obtain ⟨rfl, rfl⟩ := hs
            exact ⟨[], p, ps, d, by simp, hp, Or.inr rfl, by simp [hdec],
              by simp [inlinePayloads], by simp [inlinePayloads],
              by simp, by simp [inlinePayloads], rfl⟩
          | done =>
            rw [partStep_image out w sv p d img hp hdec hw] at hs
            simp at hs

theorem inlinePayloads_append (ps qs : List Part) :
    inlinePayloads (ps ++ qs) = inlinePayloads ps ++ inlinePayloads qs := by
  simp [inlinePayloads, List.filterMap_append]

/-- The two ends of the Output Writer, in terms of the loop over all parts. -/
theorem outputWriter_cases (out body : Str) (cands : List Candidate) (w : World) :
    (∃ w1 sv, partsLoop out (allParts cands) (w, false) = .ok (w1, sv) ∧
      outputWriter out body cands w =
        (w1, if sv then none else some (Failure.noImageInResponse body))) ∨
    (∃ w1 f, partsLoop out (allParts cands) (w, false) = .error (w1, f) ∧
      outputWriter out body cands w = (w1, some f)) := by
  unfold outputWriter
  rw [candsLoop_eq]
  cases h : partsLoop out (allParts cands) (w, false) with
  | error e => obtain ⟨w1, f⟩ := e; exact Or.inr ⟨w1, f, rfl, rfl⟩
  | ok s =>
    obtain ⟨w1, sv⟩ := s
    refine Or.inl ⟨w1, sv, rfl, ?_⟩
    cases sv <;> rfl

/-- C1 (amended): when the Output Writer ends normally, the output file holds
the base64 decoding of the LAST inline-image part in scanning order (every
image part is written in turn, each over the one before); the text parts go to
standard error as progress messages and nowhere else. When exactly one part
carries inline data, that part is also the first and the file holds its
decoded bytes. -/
theorem outputWriter_persists_last_image (out body : Str) (cands : List Candidate) (w : World)
    (h : (outputWriter out body cands w).2 = none) :
    ∃ d img, (inlinePayloads (allParts cands)).getLast? = some d ∧
      b64Decode d = some img ∧
      (outputWriter out body cands w).1.outFile = some img ∧
      (outputWriter out body cands w).1.stderr = w.stderr ++ progressMessages (allParts cands) ∧
      ((inlinePayloads (allParts cands)).length = 1 →
        (inlinePayloads (allParts cands)).head? = some d) := by
  rcases outputWriter_cases out body cands w with ⟨w1, sv, hl, he⟩ | ⟨w1, f, hl, he⟩
  · rw [he] at h ⊢
    obtain ⟨-, -, a3, -, a5, a6, -, -, -, -, a11, -⟩ := partsLoop_ok out _ w w1 false sv hl
    cases hps : inlinePayloads (allParts cands) with
    | nil => simp [a5, hps] at h
    | cons x xs =>
      have hne : x :: xs ≠ [] := List.cons_ne_nil x xs
      have hmem : (x :: xs).getLast hne ∈ inlinePayloads (allParts cands) := by
        rw [hps]; exact List.getLast_mem hne
      obtain ⟨img, himg⟩ := Option.ne_none_iff_exists'.mp (a11 _ hmem)
      refine ⟨(x :: xs).getLast hne, img, List.getLast?_eq_getLast _ hne, himg, ?_, a6, ?_⟩
      · simp only
        rw [a3, hps, List.getLast?_eq_getLast _ hne]
        exact himg
      · intro hlen
        have : xs = [] := by
          cases xs with
          | nil => rfl
          | cons y ys => simp at hlen
        subst this
        rfl
  · rw [he] at h; simp at h

/-- The amended C1 at a response whose only image is the second part of the
second candidate. -/
theorem outputWriter_persists_last_image_witness :
    ∃ d img, (inlinePayloads (allParts oneImageResponse)).getLast? = some d ∧
      b64Decode d = some img ∧
      (outputWriter "/tmp/out.png".toList [] oneImageResponse sampleWorld).1.outFile = some img ∧
      (outputWriter "/tmp/out.png".toList [] oneImageResponse sampleWorld).1.stderr =
        sampleWorld.stderr ++ progressMessages (allParts oneImageResponse) ∧
      ((inlinePayloads (allParts oneImageResponse)).length = 1 →
        (inlinePayloads (allParts oneImageResponse)).head? = some d) :=
  outputWriter_persists_last_image "/tmp/out.png".toList [] oneImageResponse sampleWorld
    (by decide)

/-- C1 as stated fails: with an image in each of two candidates the run ends
normally and the file holds the second image (byte 66), not the decoding of
the first inline-image part (byte 65). -/
theorem first_image_not_persisted :
    (outputWriter "/tmp/out.png".toList [] twoImageResponse sampleWorld).2 = none ∧
    (inlinePayloads (allParts twoImageResponse)).head? = some "QQ==".toList ∧
    b64Decode "QQ==".toList = some [65] ∧
    (outputWriter "/tmp/out.png".toList [] twoImageResponse sampleWorld).1.outFile = some [66] ∧
    (outputWriter "/tmp/out.png".toList [] twoImageResponse sampleWorld).1.outFile ≠
      b64Decode "QQ==".toList := by
  decide

/-- C3: a response without any inline-data part ends in NoImageInResponse with
the raw body, with no write to the output path and the stored last-output path
as before; and NoImageInResponse is raised for such responses only. -/
theorem no_image_in_response (out body : Str) (cands : List Candidate) (w : World) :
    (inlinePayloads (allParts cands) = [] →
      (outputWriter out body cands w).2 = some (Failure.noImageInResponse body) ∧
      (outputWriter out body cands w).1.outFile = w.outFile ∧
      (outputWriter out body cands w).1.writes = w.writes ∧
      (outputWriter out body cands w).1.cfgLast = w.cfgLast ∧
      (outputWriter out body cands w).1.cfgModel = w.cfgModel ∧
      (outputWriter out body cands w).1.stdout = w.stdout) ∧
    (∀ b, (outputWriter out body cands w).2 = some (Failure.noImageInResponse b) →
      inlinePayloads (allParts cands) = []) := by
  rcases outputWriter_cases out body cands w with ⟨w1, sv, hl, he⟩ | ⟨w1, f, hl, he⟩
  · obtain ⟨a1, a2, a3, a4, a5, -, a7, -, -, -, -, -⟩ := partsLoop_ok out _ w w1 false sv hl
    rw [he]
    constructor
    · intro hps
      rw [hps] at a1 a2 a3 a4 a5
      have hsv : sv = false := by simpa using a5
      subst hsv
      exact ⟨by simp, by simpa using a3, by simpa using a1, by simpa using a4, a7,
        by simpa using a2⟩
    · intro b hb
      cases sv with
      | true => simp at hb
      | false => simpa using a5
  · obtain ⟨pre, p, post, d, e, hp, hfk, -, -, -, -, -, -⟩ :=
      partsLoop_error out _ w w1 false f hl
    rw [he]
    have hne : inlinePayloads (allParts cands) ≠ [] := by
      rw [e, inlinePayloads_append]
      simp [inlinePayloads, List.filterMap_cons, hp]
    constructor
    · intro hps; exact absurd hps hne
    · intro b hb
      simp only [Option.some.injEq] at hb
      rcases hfk with hfd | hfw
      · rw [hfd] at hb; cases hb
      · rw [hfw] at hb; cases hb

/-- C3 at the response with no candidate at all. -/
theorem no_image_in_response_witness :
    (outputWriter "/tmp/out.png".toList "{}".toList [] sampleWorld).2 =
        some (Failure.noImageInResponse "{}".toList) ∧
      (outputWriter "/tmp/out.png".toList "{}".toList [] sampleWorld).1.outFile =
        sampleWorld.outFile ∧
      (outputWriter "/tmp/out.png".toList "{}".toList [] sampleWorld).1.writes =
        sampleWorld.writes ∧
      (outputWriter "/tmp/out.png".toList "{}".toList [] sampleWorld).1.cfgLast =
        sampleWorld.cfgLast ∧
      (outputWriter "/tmp/out.png".toList "{}".toList [] sampleWorld).1.cfgModel =
        sampleWorld.cfgModel ∧
      (outputWriter "/tmp/out.png".toList "{}".toList [] sampleWorld).1.stdout =
        sampleWorld.stdout :=
  (no_image_in_response "/tmp/out.png".toList "{}".toList [] sampleWorld).1 (by decide)

/-! ## `mimeType` -/

theorem encChar_spec : ∀ v : Fin 64,
    decChar (encChar v.val) = some v.val ∧ encChar v.val ≠ '=' ∧
    (!(encChar v.val == '\n' || encChar v.val == '\r')) = true := by
  decide

theorem decChar_encChar (v : Nat) (h : v < 64) : decChar (encChar v) = some v :=
  (encChar_spec ⟨v, h⟩).1

theorem encChar_ne_pad (v : Nat) (h : v < 64) : encChar v ≠ '=' :=
  (encChar_spec ⟨v, h⟩).2.1

theorem encChar_kept (v : Nat) (h : v < 64) :
    (!(encChar v == '\n' || encChar v == '\r')) = true :=
  (encChar_spec ⟨v, h⟩).2.2

theorem filter_b64Encode (bs : Bytes) :
    (b64Encode bs).filter (fun c => !(c == '\n' || c == '\r')) = b64Encode bs := by
  rw [List.filter_eq_self]
  induction bs using b64Encode.induct with
  | case1 => simp [b64Encode]
  | case2 a =>
    intro c hc
    simp only [b64Encode, List.mem_cons, List.mem_singleton, List.not_mem_nil, or_false] at hc
    rcases hc with rfl | rfl | rfl | rfl
    · exact encChar_kept _ (Nat.mod_lt _ (by norm_num))
    · exact encChar_kept _ (Nat.mod_lt _ (by norm_num))
    · decide
    · decide
  | case3 a b =>
    intro c hc
    simp only [b64Encode, List.mem_cons, List.mem_singleton, List.not_mem_nil, or_false] at hc
    rcases hc with rfl | rfl | rfl | rfl
    · exact encChar_kept _ (Nat.mod_lt _ (by norm_num))
    · exact encChar_kept _ (Nat.mod_lt _ (by norm_num))
    · exact encChar_kept _ (Nat.mod_lt _ (by norm_num))
    · decide
  | case4 a b c rest ih =>
    intro x hx
    simp only [b64Encode, List.mem_cons] at hx
    rcases hx with rfl | rfl | rfl | rfl | hx
    · exact encChar_kept _ (Nat.mod_lt _ (by norm_num))
    · exact encChar_kept _ (Nat.mod_lt _ (by norm_num))
    · exact encChar_kept _ (Nat.mod_lt _ (by norm_num))
    · exact encChar_kept _ (Nat.mod_lt _ (by norm_num))
    · exact ih x hx

theorem decodeQuanta_b64Encode (bs : Bytes) (h : ∀ b ∈ bs, b < 256) :
    decodeQuanta (b64Encode bs) = some bs := by
  induction bs using b64Encode.induct with
  | case1 => simp [b64Encode, decodeQuanta]
  | case2 a =>
    have ha : a < 256 := h a (by simp)
    simp only [b64Encode, decodeQuanta]
    rw [decChar_encChar _ (Nat.mod_lt _ (by norm_num)),
      decChar_encChar _ (Nat.mod_lt _ (by norm_num))]
    simp
    omega
  | case3 a b =>
    have ha : a < 256 := h a (by simp)
    have hb : b < 256 := h b (by simp)
    simp only [b64Encode, decodeQuanta]
    rw [decChar_encChar _ (Nat.mod_lt _ (by norm_num)),
      decChar_encChar _ (Nat.mod_lt _ (by norm_num))]
    simp only [encChar_ne_pad _ (Nat.mod_lt _ (by norm_num : 64 > 0)), if_false]
    rw [decChar_encChar _ (Nat.mod_lt _ (by norm_num))]
    simp
    omega
  | case4 a b c rest ih =>
    have ha : a < 256 := h a (by simp)
    have hb : b < 256 := h b (by simp)
    have hc : c < 256 := h c (by simp)
    have hrest : ∀ x ∈ rest, x < 256 := fun x hx => h x (by simp [hx])
    simp only [b64Encode, decodeQuanta]
    rw [decChar_encChar _ (Nat.mod_lt _ (by norm_num)),
      decChar_encChar _ (Nat.mod_lt _ (by norm_num))]
    simp only [encChar_ne_pad _ (Nat.mod_lt _ (by norm_num : 64 > 0)), if_false]
    rw [decChar_encChar _ (Nat.mod_lt _ (by norm_num))]
    simp only
    rw [decChar_encChar _ (Nat.mod_lt _ (by norm_num)), ih hrest]
    simp
    omega

/-- Decoding what `EncodeToString` gives returns the bytes. -/
theorem b64Decode_b64Encode (bs : Bytes) (h : ∀ b ∈ bs, b < 256) :
    b64Decode (b64Encode bs) = some bs := by
  unfold b64Decode
  rw [filter_b64Encode, decodeQuanta_b64Encode bs h]

/-- C4: the part list of the request is the text part alone when no input
image is given, and the text part followed by one inline-data part when an
input path is given and readable; that part holds `mimeType(path)` and the
`StdEncoding` base64 of the bytes of the file, which decodes back to exactly
those bytes. This holds for every prompt text, the non-empty ones included. -/
theorem buildParts_shape (readFile : Str → Option Bytes) (promptText input : Str) (w : World) :
    (input = [] →
      (buildParts readFile promptText input w).1 = .ok [ReqPart.text promptText]) ∧
    (∀ bytes, input ≠ [] → readFile input = some bytes →
      (buildParts readFile promptText input w).1 =
        .ok [ReqPart.text promptText,
             ReqPart.inlineData (mimeType input) (b64Encode bytes)] ∧
      ((∀ b ∈ bytes, b < 256) → b64Decode (b64Encode bytes) = some bytes)) := by
  constructor
  · intro h
    simp [buildParts, h]
  · intro bytes hin hread
    refine ⟨?_, b64Decode_b64Encode bytes⟩
    simp [buildParts, hin, hread]

/-- C4 at the prompt `a cat` with the readable input `in.PNG` of two bytes. -/
theorem buildParts_shape_witness :
    (buildParts (fun _ => some [77, 97]) "a cat".toList "in.PNG".toList sampleWorld).1 =
      .ok [ReqPart.text "a cat".toList,
           ReqPart.inlineData "image/png".toList "TWE=".toList] :=
  ((buildParts_shape (fun _ => some [77, 97]) "a cat".toList "in.PNG".toList sampleWorld).2
    [77, 97] (by decide) rfl).1

/-! ## Model Selector -/

/-- C5 (amended): with a non-empty flag value `getModel` returns it without
error, whatever the store held, and hands it to `cacheModel`: the model file
then holds what the write leaves, which is exactly the flag value when the
write succeeds. The last-output entry is as before, and neither the catalog
nor standard input is touched (the result does not depend on the catalog, no
request is counted, standard input is unread). -/
theorem getModel_flag_wins (catalog : Reply (List Model)) (f : Str) (w : World) (hf : f ≠ []) :
    (getModel catalog f w).1 = .ok f ∧
    (getModel catalog f w).2.cfgModel = w.modelWrite w.cfgModel f ∧
    (w.modelWrite w.cfgModel f = some f → (getModel catalog f w).2.cfgModel = some f) ∧
    (getModel catalog f w).2.cfgLast = w.cfgLast ∧
    (getModel catalog f w).2.catalogCalls = w.catalogCalls ∧
    (getModel catalog f w).2.stdin = w.stdin ∧
    (getModel catalog f w).2 = { w with cfgModel := w.modelWrite w.cfgModel f } ∧
    (∀ other : Reply (List Model), getModel other f w = getModel catalog f w) := by
  have hflag : ∀ c : Reply (List Model), getModel c f w = (.ok f, cacheModel w f) := by
    intro c
    unfold getModel
    rw [if_pos hf]
  rw [hflag catalog]
  refine ⟨rfl, rfl, fun h => ?_, rfl, rfl, rfl, rfl, ?_⟩
  · simp only [cacheModel]
    exact h
  · intro other
    exact hflag other

/-- The amended C5 with the flag `foo` over a writable store that holds `bar`. -/
theorem getModel_flag_wins_witness :
    (getModel .transportError "foo".toList { sampleWorld with cfgModel := some "bar".toList }).1 =
      .ok "foo".toList ∧
    (getModel .transportError "foo".toList
      { sampleWorld with cfgModel := some "bar".toList }).2.cfgModel = some "foo".toList :=
  ⟨(getModel_flag_wins .transportError "foo".toList
      { sampleWorld with cfgModel := some "bar".toList } (by decide)).1,
   (getModel_flag_wins .transportError "foo".toList
      { sampleWorld with cfgModel := some "bar".toList } (by decide)).2.2.1 rfl⟩

/-- C5 as stated fails: over a store that cannot be written, `getModel` with
the flag `foo` returns `foo` without error and the cached model is still
`bar`. -/
theorem flag_not_cached_when_store_unwritable :
    "foo".toList ≠ [] ∧
    (getModel .transportError "foo".toList readOnlyStoreWorld).1 = .ok "foo".toList ∧
    (getModel .transportError "foo".toList readOnlyStoreWorld).2.cfgModel =
      some "bar".toList ∧
    (getModel .transportError "foo".toList readOnlyStoreWorld).2.cfgModel ≠
      some "foo".toList := by
  decide

/-- C6 (amended): after `getModel` with a flag `m` that is not blank, over a
store in which the write of the model file succeeds, `getModel` with an empty
flag returns `m` trimmed of its leading and trailing white space, that is `m`
itself when it has none, and does so from the cache: the world is left as it
was, no catalog request and no read of standard input. -/
theorem model_cache_round_trip (c1 c2 : Reply (List Model)) (m : Str) (w : World)
    (hm : TrimSpace m ≠ []) (hw : w.modelWrite w.cfgModel m = some m) :
    (getModel c2 [] (getModel c1 m w).2).1 = .ok (TrimSpace m) ∧
    (getModel c2 [] (getModel c1 m w).2).2 = (getModel c1 m w).2 ∧
    (TrimSpace m = m → (getModel c2 [] (getModel c1 m w).2).1 = .ok m) := by
  have hne : m ≠ [] := by
    intro h; subst h; exact hm rfl
  have h1 : (getModel c1 m w).2 = { w with cfgModel := some m } := by
    simp [getModel, hne, cacheModel, hw]
  rw [h1]
  have h2 : getModel c2 [] { w with cfgModel := some m } =
      (.ok (TrimSpace m), { w with cfgModel := some m }) := by
    simp [getModel, hm]
  rw [h2]
  refine ⟨rfl, rfl, ?_⟩
  intro h
  simp only
  rw [h]

/-- The amended C6 at the flag `foo`. -/
theorem model_cache_round_trip_witness :
    (getModel .transportError [] (getModel .transportError "foo".toList sampleWorld).2).1 =
      .ok "foo".toList :=
  (model_cache_round_trip .transportError .transportError "foo".toList sampleWorld
    (by decide) rfl).1

/-- C6 as stated fails. For a flag with white space around it: after the flag
`"foo "` the second run returns `"foo"`, and after the flag `" "` (not empty)
the second run goes to the catalog, here sent one request that fails. For a
store that cannot be written: after the flag `foo` the second run returns the
model `bar` that the store still holds. -/
theorem model_cache_round_trip_fails :
    ("foo ".toList ≠ [] ∧
      (getModel .transportError [] (getModel .transportError "foo ".toList sampleWorld).2).1 =
        .ok "foo".toList ∧
      (getModel .transportError [] (getModel .transportError "foo ".toList sampleWorld).2).1 ≠
        .ok "foo ".toList) ∧
    (" ".toList ≠ [] ∧
      (getModel .transportError [] (getModel .transportError " ".toList sampleWorld).2).1 =
        .error Failure.transport ∧
      (getModel .transportError [] (getModel .transportError " ".toList sampleWorld).2).2.catalogCalls
        = sampleWorld.catalogCalls + 1) ∧
    ((getModel .transportError []
        (getModel .transportError "foo".toList readOnlyStoreWorld).2).1 = .ok "bar".toList ∧
      (getModel .transportError []
        (getModel .transportError "foo".toList readOnlyStoreWorld).2).1 ≠ .ok "foo".toList) := by
  decide

/-! ## `listImageModels` -/

theorem char_eq_of_toNat_eq (a b : Char) (h : a.toNat = b.toNat) : a = b := by
  rw [← Char.ofNat_toNat a, ← Char.ofNat_toNat b, h]

theorem strLess_asymm (a b : Str) (h : strLess a b = true) : strLess b a = false := by
  induction a generalizing b with
  | nil => cases b <;> simp [strLess] at h ⊢
  | cons x xs ih =>
    cases b with
    | nil => simp [strLess] at h
    | cons y ys =>
      simp only [strLess] at h ⊢
      split_ifs at h ⊢ with h1 h2 h3
      all_goals first | omega | exact ih ys h | rfl

theorem strLess_le_trans (a b c : Str) (hab : strLess b a = false) (hbc : strLess c b = false) :
    strLess c a = false := by
  induction a generalizing b c with
  | nil => cases c <;> simp [strLess]
  | cons x xs ih =>
    cases b with
    | nil => simp [strLess] at hab
    | cons y ys =>
      cases c with
      | nil => simp [strLess] at hbc
      | cons z zs =>
        simp only [strLess] at hab hbc ⊢
        split_ifs at hab hbc ⊢ with h1 h2 h3 h4 h5 h6
        all_goals first | omega | exact ih ys zs hab hbc | rfl

theorem strLess_total (a b : Str) (h : strLess b a = false) :
    strLess a b = true ∨ a = b := by
  induction a generalizing b with
  | nil => cases b <;> simp [strLess] at h ⊢
  | cons x xs ih =>
    cases b with
    | nil => simp [strLess] at h
    | cons y ys =>
      simp only [strLess] at h ⊢
      split_ifs at h ⊢ with h1 h2 h3
      all_goals first
        | omega
        | exact Or.inl rfl
        | simp at h
        | (rcases ih ys h with h5 | h5
           · exact Or.inl h5
           · right
             rw [h5, char_eq_of_toNat_eq x y (by omega)])

theorem filterLoop_eq (ms acc : List Model) :
    filterLoop ms acc = acc ++ (ms.filter mentionsImageGeneration).map stripModels := by
  induction ms generalizing acc with
  | nil => simp [filterLoop]
  | cons m ms ih =>
    by_cases h : mentionsImageGeneration m = true
    · have h1 := h
      unfold mentionsImageGeneration at h1
      simp only [filterLoop, h1, if_true, ih, List.filter_cons, h, List.map_cons,
        List.append_assoc, List.singleton_append]
      rfl
    · have h1 := h
      unfold mentionsImageGeneration at h1
      simp only [filterLoop, h1, ih, List.filter_cons, h]
      rfl

theorem insertByName_perm (m : Model) (xs : List Model) :
    List.Perm (insertByName m xs) (m :: xs) := by
  induction xs with
  | nil => exact List.Perm.refl _
  | cons x xs ih =>
    unfold insertByName
    split_ifs
    · exact (List.Perm.cons x ih).trans (List.Perm.swap m x xs)
    · exact List.Perm.refl _

theorem sortByName_perm (xs : List Model) : List.Perm (sortByName xs) xs := by
  induction xs with
  | nil => exact List.Perm.refl _
  | cons x xs ih =>
    exact (insertByName_perm x (sortByName xs)).trans (List.Perm.cons x ih)

theorem insertByName_sorted (m : Model) (xs : List Model)
    (h : xs.Pairwise (fun a b => strLess b.name a.name = false)) :
    (insertByName m xs).Pairwise (fun a b => strLess b.name a.name = false) := by
  induction xs with
  | nil => simp [insertByName]
  | cons x xs ih =>
    rw [List.pairwise_cons] at h
    unfold insertByName
    split_ifs with hlt
    · rw [List.pairwise_cons]
      refine ⟨?_, ih h.2⟩
      intro y hy
      rcases List.mem_cons.mp ((insertByName_perm m xs).mem_iff.mp hy) with rfl | hy
      · exact strLess_asymm _ _ hlt
      · exact h.1 y hy
    · rw [List.pairwise_cons]
      refine ⟨?_, List.pairwise_cons.mpr h⟩
      have hmx : strLess x.name m.name = false := by simpa using hlt
      intro y hy
      rcases List.mem_cons.mp hy with rfl | hy
      · exact hmx
      · exact strLess_le_trans _ _ _ hmx (h.1 y hy)

theorem sortByName_sorted (xs : List Model) :
    (sortByName xs).Pairwise (fun a b => strLess b.name a.name = false) := by
  induction xs with
  | nil => simp [sortByName]
  | cons x xs ih => exact insertByName_sorted x _ ih

/-- C9: on a reply with status 200 and a decodable body, `listImageModels`
returns a list that is sorted by identifier in ascending order (of two entries
the earlier one has the smaller identifier, or the same) and is a permutation
of the catalog entries that mention image generation, each with a leading
`models/` removed from its identifier and nothing else changed. -/
theorem listImageModels_sorted_perm (body : Str) (models : List Model) :
    ∃ out, listImageModels (.response 200 body (some models)) = .ok out ∧
      out.Pairwise (fun a b => strLess a.name b.name = true ∨ a.name = b.name) ∧
      out.Pairwise (fun a b => strLess b.name a.name = false) ∧
      List.Perm out ((models.filter mentionsImageGeneration).map stripModels) := by
  refine ⟨sortByName (filterLoop models []), by simp [listImageModels], ?_, ?_, ?_⟩
  · exact (sortByName_sorted _).imp (fun h => strLess_total _ _ h)
  · exact sortByName_sorted _
  · have h := sortByName_perm (filterLoop models [])
    rw [filterLoop_eq, List.nil_append] at h ⊢
    exact h

/-! ## `getModel`: the interactive flow -/

theorem skipSpace_digit (c : Char) (cs : Str) (h : isDigit c = true) :
    skipSpace (c :: cs) = some (c :: cs) := by
  have hr : 48 ≤ c.toNat ∧ c.toNat ≤ 57 := by simpa [isDigit] using h
  have h1 : c ≠ '\r' := by
    intro e; subst e; revert hr; decide
  have h2 : c ≠ '\n' := by
    intro e; subst e; revert hr; decide
  have h3 : isSpace c = false := by
    simp only [isSpace, Bool.or_eq_false_iff, Bool.and_eq_false_iff, decide_eq_false_iff_not,
      beq_eq_false_iff_ne]
    omega
  simp [skipSpace, h1, h2, h3]

/-- On a decimal integer `Sscanf` stores its value, unless it exceeds the
64-bit `int`. -/
theorem sscanfInt_decimal (s : Str) (h : isDecimal s = true) :
    sscanfInt s =
      if digitsValue s < 2 ^ 63 then some (digitsValue s : Int) else none := by
  simp only [isDecimal, Bool.and_eq_true, decide_eq_true_eq, List.all_eq_true] at h
  obtain ⟨hne, hall⟩ := h
  cases s with
  | nil => exact absurd rfl hne
  | cons c cs =>
    have hc : isDigit c = true := hall c (List.mem_cons_self c cs)
    have hr : 48 ≤ c.toNat ∧ c.toNat ≤ 57 := by simpa [isDigit] using hc
    have h1 : c ≠ '+' := by
      intro e; subst e; revert hr; decide
    have h2 : c ≠ '-' := by
      intro e; subst e; revert hr; decide
    have htw : (c :: cs).takeWhile isDigit = c :: cs :=
      List.takeWhile_eq_self_iff.mpr hall
    simp only [sscanfInt, skipSpace_digit c cs hc, h1, h2, if_false, scanDigits, htw]
    simp

/-- The interactive flow of `getModel`, once the catalog has given the
non-empty list `ms`: the outcome is decided by what `Sscanf` reads in the
trimmed line. -/
theorem getModel_prompt (catalog : Reply (List Model)) (ms : List Model) (w : World)
    (hcat : listImageModels catalog = .ok ms)
    (hcache : ∀ data, w.cfgModel = some data → TrimSpace data = [])
    (hne : ms ≠ []) :
    getModel catalog [] w =
      match sscanfInt (TrimSpace (readLine w.stdin).1) with
      | none => (.error Failure.selectionInvalid, promptedWorld ms (fetchingWorld w))
      | some choice =>
        if choice < 1 ∨ choice > (ms.length : Int) then
          (.error Failure.selectionInvalid, promptedWorld ms (fetchingWorld w))
        else
          match ms.get? (choice - 1).toNat with
          | none => (.error Failure.selectionInvalid, promptedWorld ms (fetchingWorld w))
          | some m => (.ok m.name, cacheModel (promptedWorld ms (fetchingWorld w)) m.name) := by
  have hlen : ms.length ≠ 0 := fun h => hne (List.length_eq_zero.mp h)
  have hc : (match w.cfgModel with
      | none => (none : Option Str)
      | some data => if TrimSpace data ≠ [] then some (TrimSpace data) else none) = none := by
    cases hm : w.cfgModel with
    | none => rfl
    | some data => simp [hcache data hm]
  unfold getModel
  simp only [ne_eq, not_true_eq_false, if_false, hc, hcat, hlen]
  rfl

theorem getModel_in_range (catalog : Reply (List Model)) (ms : List Model) (w : World)
    (hcat : listImageModels catalog = .ok ms)
    (hcache : ∀ data, w.cfgModel = some data → TrimSpace data = [])
    (hne : ms ≠ []) (k : Int)
    (hk : sscanfInt (TrimSpace (readLine w.stdin).1) = some k)
    (h1 : 1 ≤ k) (h2 : k ≤ (ms.length : Int)) :
    ∃ m, ms.get? (k - 1).toNat = some m ∧
      (getModel catalog [] w).1 = .ok m.name ∧
      (getModel catalog [] w).2.cfgModel = w.modelWrite w.cfgModel m.name := by
  rw [getModel_prompt catalog ms w hcat hcache hne, hk]
  have hlt : (k - 1).toNat < ms.length := by omega
  have hnot : ¬ (k < 1 ∨ k > (ms.length : Int)) := by omega
  simp only [hnot, if_false]
  rw [List.get?_eq_get hlt]
  exact ⟨ms.get ⟨_, hlt⟩, rfl, rfl, rfl⟩

theorem getModel_out_of_range (catalog : Reply (List Model)) (ms : List Model) (w : World)
    (hcat : listImageModels catalog = .ok ms)
    (hcache : ∀ data, w.cfgModel = some data → TrimSpace data = [])
    (hne : ms ≠ [])
    (hk : ∀ k, sscanfInt (TrimSpace (readLine w.stdin).1) = some k →
      k < 1 ∨ (ms.length : Int) < k) :
    (getModel catalog [] w).1 = .error Failure.selectionInvalid ∧
    (getModel catalog [] w).2.cfgModel = w.cfgModel ∧
    (getModel catalog [] w).2.cfgLast = w.cfgLast := by
  rw [getModel_prompt catalog ms w hcat hcache hne]
  cases hs : sscanfInt (TrimSpace (readLine w.stdin).1) with
  | none => exact ⟨rfl, rfl, rfl⟩
  | some k =>
    have hbad : k < 1 ∨ k > (ms.length : Int) := by
      rcases hk k hs with h | h
      · exact Or.inl h
      · exact Or.inr h
    simp only [if_pos hbad]
    exact ⟨trivial, rfl, rfl⟩

/-- C7 (amended): in the interactive flow over a non-empty catalog `ms` of
image models, the line read is trimmed and given to `Sscanf` with `%d`, which
reads an optional sign and the digits that follow and ignores the rest of the
line. If the trimmed line is a decimal integer `k` with `1 ≤ k ≤ n`, or more
generally begins with such an integer, the identifier of the `k`-th entry is
returned and handed to `cacheModel`: the model file then holds what the write
leaves, the identifier itself when the write succeeds. If the integer read is
out of that range, signed or not, or the line does not begin with an integer
at all, `getModel` fails with SelectionInvalid and the config store is as
before. The selection succeeds if and only if the trimmed line begins with an
integer that is in range. -/
theorem getModel_selection (catalog : Reply (List Model)) (ms : List Model) (w : World)
    (line : Str)
    (hcat : listImageModels catalog = .ok ms)
    (hcache : ∀ data, w.cfgModel = some data → TrimSpace data = [])
    (hne : ms ≠ []) (hlen : ms.length < 2 ^ 63)
    (hline : TrimSpace (readLine w.stdin).1 = line) :
    (isDecimal line = true → 1 ≤ digitsValue line → digitsValue line ≤ ms.length →
      ∃ m, ms.get? (digitsValue line - 1) = some m ∧
        (getModel catalog [] w).1 = .ok m.name ∧
        (getModel catalog [] w).2.cfgModel = w.modelWrite w.cfgModel m.name ∧
        (w.modelWrite w.cfgModel m.name = some m.name →
          (getModel catalog [] w).2.cfgModel = some m.name)) ∧
    (isDecimal line = true → (digitsValue line < 1 ∨ ms.length < digitsValue line) →
      (getModel catalog [] w).1 = .error Failure.selectionInvalid ∧
      (getModel catalog [] w).2.cfgModel = w.cfgModel ∧
      (getModel catalog [] w).2.cfgLast = w.cfgLast) ∧
    (sscanfInt line = none →
      (getModel catalog [] w).1 = .error Failure.selectionInvalid ∧
      (getModel catalog [] w).2.cfgModel = w.cfgModel ∧
      (getModel catalog [] w).2.cfgLast = w.cfgLast) ∧
    (∀ k : Int, sscanfInt line = some k → (k < 1 ∨ (ms.length : Int) < k) →
      (getModel catalog [] w).1 = .error Failure.selectionInvalid ∧
      (getModel catalog [] w).2.cfgModel = w.cfgModel ∧
      (getModel catalog [] w).2.cfgLast = w.cfgLast) ∧
    (∀ k : Int, sscanfInt line = some k → 1 ≤ k → k ≤ (ms.length : Int) →
      ∃ m, ms.get? (k - 1).toNat = some m ∧
        (getModel catalog [] w).1 = .ok m.name ∧
        (getModel catalog [] w).2.cfgModel = w.modelWrite w.cfgModel m.name ∧
        (w.modelWrite w.cfgModel m.name = some m.name →
          (getModel catalog [] w).2.cfgModel = some m.name)) ∧
    ((∃ name, (getModel catalog [] w).1 = .ok name) ↔
      ∃ k : Int, sscanfInt line = some k ∧ 1 ≤ k ∧ k ≤ (ms.length : Int)) := by
  subst hline
  refine ⟨?_, ?_, ?_, ?_, ?_, ?_⟩
  · intro hd h1 h2
    have hs := sscanfInt_decimal _ hd
    have hv : digitsValue (TrimSpace (readLine w.stdin).1) < 2 ^ 63 := by omega
    rw [if_pos hv] at hs
    obtain ⟨m, hm, hr, hc⟩ := getModel_in_range catalog ms w hcat hcache hne _ hs
      (by omega) (by omega)
    have e : ((digitsValue (TrimSpace (readLine w.stdin).1) : Int) - 1).toNat =
        digitsValue (TrimSpace (readLine w.stdin).1) - 1 := by omega
    rw [e] at hm
    exact ⟨m, hm, hr, hc, fun hwr => hc.trans hwr⟩
  · intro hd hbad
    apply getModel_out_of_range catalog ms w hcat hcache hne
    intro k hk
    rw [sscanfInt_decimal _ hd] at hk
    split_ifs at hk with hv
    simp only [Option.some.injEq] at hk
    omega
  · intro hnone
    apply getModel_out_of_range catalog ms w hcat hcache hne
    intro k hk
    rw [hnone] at hk
    simp at hk
  · intro k hk hbad
    apply getModel_out_of_range catalog ms w hcat hcache hne
    intro k2 hk2
    rw [hk] at hk2
    simp only [Option.some.injEq] at hk2
    subst hk2
    exact hbad
  · intro k hk h1 h2
    obtain ⟨m, hm, hr, hc⟩ := getModel_in_range catalog ms w hcat hcache hne k hk h1 h2
    exact ⟨m, hm, hr, hc, fun hwr => hc.trans hwr⟩
  · constructor
    · rintro ⟨name, hname⟩
      by_contra hno
      have hbad : ∀ k, sscanfInt (TrimSpace (readLine w.stdin).1) = some k →
          k < 1 ∨ (ms.length : Int) < k := by
        intro k hk
        by_contra hin
        exact hno ⟨k, hk, by omega, by omega⟩
      have := (getModel_out_of_range catalog ms w hcat hcache hne hbad).1
      rw [this] at hname
      simp at hname
    · rintro ⟨k, hk, h1, h2⟩
      obtain ⟨m, -, hr, -⟩ := getModel_in_range catalog ms w hcat hcache hne k hk h1 h2
      exact ⟨m.name, hr⟩

/-- The amended C7 at the input `3` over the catalog of five entries and a
writable store: the third entry is returned and cached. -/
theorem getModel_selection_witness :
    ∃ m, sampleModels.get? (digitsValue "3".toList - 1) = some m ∧
      (getModel sampleCatalog [] { sampleWorld with stdin := "3\n".toList }).1 = .ok m.name ∧
      (getModel sampleCatalog [] { sampleWorld with stdin := "3\n".toList }).2.cfgModel =
        some m.name :=
  (fun h => h.elim (fun m hm => ⟨m, hm.1, hm.2.1, hm.2.2.2 rfl⟩))
    ((getModel_selection sampleCatalog sampleModels { sampleWorld with stdin := "3\n".toList }
      "3".toList (by decide) (by intro data h; cases h) (by decide) (by decide) (by decide)).1
      (by decide) (by decide) (by decide))

/-- C7 as stated fails: the input `3abc` is not a decimal integer, yet the
selection succeeds with the third of the five entries, which is cached. -/
theorem selection_accepts_trailing_text :
    listImageModels sampleCatalog = .ok sampleModels ∧
    sampleModels.length = 5 ∧
    TrimSpace (readLine "3abc\n".toList).1 = "3abc".toList ∧
    isDecimal "3abc".toList = false ∧
    (getModel sampleCatalog [] { sampleWorld with stdin := "3abc\n".toList }).1 =
      .ok "gemini-image-c".toList ∧
    (getModel sampleCatalog [] { sampleWorld with stdin := "3abc\n".toList }).2.cfgModel =
      some "gemini-image-c".toList := by
  decide

/-! ## `loadEnvFile` -/

theorem loadEnvFile_eq (reads : List (Option Str)) (env : Env) :
    loadEnvFile reads env =
      match discoveredFile reads with
      | none => env
      | some data => (splitLines data).foldl envLine env := by
  induction reads with
  | nil => rfl
  | cons r rs ih =>
    cases r with
    | none => simpa [loadEnvFile, discoveredFile] using ih
    | some data => rfl

theorem trimFunc_initial (p : Char → Bool) (s : Str) : trimFunc p s <+: s.dropWhile p :=
  List.rdropWhile_prefix p (s.dropWhile p)

theorem trimFunc_mem (p : Char → Bool) (s : Str) (x : Char) (h : x ∈ trimFunc p s) : x ∈ s :=
  (List.dropWhile_sublist p).subset ((trimFunc_initial p s).subset h)

/-- A trimmed string does not begin with a rune that is trimmed. -/
theorem trimFunc_head (p : Char → Bool) (s : Str) (c : Char) (t : Str)
    (h : trimFunc p s = c :: t) : p c = false := by
  obtain ⟨r, hr⟩ := trimFunc_initial p s
  rw [h] at hr
  have hne : s.dropWhile p ≠ [] := by rw [← hr]; simp
  have := List.head_dropWhile_not p s hne
  simpa [← hr] using this

/-- Trimming keeps something of a string that begins with a rune that is not
trimmed. -/
theorem trimFunc_ne_nil (p : Char → Bool) (c : Char) (t : Str) (h : p c = false) :
    trimFunc p (c :: t) ≠ [] := by
  unfold trimFunc
  have h1 : (c :: t).dropWhile p = c :: t := by simp [List.dropWhile, h]
  rw [h1]
  intro hnil
  have h2 : (c :: t).reverse.dropWhile p = [] := by
    simpa using congrArg List.reverse hnil
  rw [List.dropWhile_eq_nil_iff] at h2
  have := h2 c (by simp)
  rw [h] at this
  exact absurd this (by decide)

theorem not_mem_take_indexOf (a : Char) (l : Str) : a ∉ l.take (l.indexOf a) := by
  induction l with
  | nil => simp
  | cons x xs ih =>
    rw [List.indexOf_cons]
    by_cases hx : x = a
    · simp [hx]
    · have hb : (x == a) = false := by simpa using hx
      rw [hb]
      simp only [cond_false, List.take_succ_cons, List.mem_cons, not_or]
      exact ⟨fun e => hx e.symm, ih⟩

/-- The key read from a line is not empty and has no `=`. -/
theorem parseEnvLine_key (raw key val : Str) (h : parseEnvLine raw = some (key, val)) :
    key ≠ [] ∧ '=' ∉ key := by
  unfold parseEnvLine at h
  simp only at h
  split_ifs at h with h1 h2
  simp only [Option.some.injEq, Prod.mk.injEq] at h
  obtain ⟨hkey, -⟩ := h
  subst hkey
  constructor
  · cases hl : TrimSpace raw with
    | nil => exact absurd (Or.inl hl) h1
    | cons c t =>
      have hc : isSpace c = false := trimFunc_head isSpace raw c t hl
      rw [hl] at h2
      obtain ⟨n, hn⟩ : ∃ n, List.indexOf '=' (c :: t) = n + 1 :=
        Nat.exists_eq_succ_of_ne_zero (by omega)
      rw [hn, List.take_succ_cons]
      exact trimFunc_ne_nil isSpace c _ hc
  · intro hmem
    exact not_mem_take_indexOf '=' (TrimSpace raw) (trimFunc_mem isSpace _ '=' hmem)

/-- One line either leaves the environment as it is or sets the key it names,
which had no non-empty value, to the value it names. -/
theorem envLine_cases (env : Env) (raw : Str) :
    envLine env raw = env ∨
    ∃ key val, parseEnvLine raw = some (key, val) ∧ Getenv env key = [] ∧
      envLine env raw = fun k => if k = key then some val else env k := by
  cases hp : parseEnvLine raw with
  | none => exact Or.inl (by simp [envLine, hp])
  | some kv =>
    obtain ⟨key, val⟩ := kv
    by_cases hg : Getenv env key = []
    · have e : envLine env raw = Setenv env key val := by simp [envLine, hp, hg]
      rw [e]
      unfold Setenv
      split_ifs
      · exact Or.inl rfl
      · exact Or.inr ⟨key, val, rfl, hg, rfl⟩
    · exact Or.inl (by simp [envLine, hp, hg])

/-- After the lines `ls`, a variable has the value it had, or it had no
non-empty value and has the value named for it by one of the lines. -/
theorem foldl_envLine (ls : List Str) (env : Env) (k : Str) :
    ls.foldl envLine env k = env k ∨
    (Getenv env k = [] ∧ ∃ line v, line ∈ ls ∧ parseEnvLine line = some (k, v) ∧
      ls.foldl envLine env k = some v) := by
  induction ls generalizing env with
  | nil => exact Or.inl rfl
  | cons l ls ih =>
    rw [List.foldl_cons]
    rcases envLine_cases env l with he | ⟨key, val, hp, hg, he⟩
    · rw [he]
      rcases ih env with h | ⟨hg, line, v, hm, hp, hv⟩
      · exact Or.inl h
      · exact Or.inr ⟨hg, line, v, List.mem_cons_of_mem l hm, hp, hv⟩
    · by_cases hk : k = key
      · subst hk
        rcases ih (envLine env l) with h | ⟨-, line, v, hm, hp2, hv⟩
        · right
          refine ⟨hg, l, val, List.mem_cons_self l ls, hp, ?_⟩
          rw [h, he]
          simp
        · exact Or.inr ⟨hg, line, v, List.mem_cons_of_mem l hm, hp2, hv⟩
      · have hsame : envLine env l k = env k := by
          rw [he]; simp [hk]
        rcases ih (envLine env l) with h | ⟨hg2, line, v, hm, hp2, hv⟩
        · left; rw [h, hsame]
        · right
          refine ⟨?_, line, v, List.mem_cons_of_mem l hm, hp2, hv⟩
          unfold Getenv at hg2 ⊢
          rw [← hsame]; exact hg2

/-- What `loadEnvFile` does keep: a variable that has a non-empty value has
the same value after the call. A variable whose value changes was unset or set
to the empty string (`os.Getenv` gives the empty string for both), and its new
value is the one a `KEY=VALUE` line of the discovered file names for it. A
line whose key has a non-empty value changes nothing; a line whose key has
none sets that key to its value (when neither holds a NUL, which `os.Setenv`
refuses) and nothing else. -/
theorem loadEnvFile_keeps_nonempty (reads : List (Option Str)) (env : Env) :
    (∀ k v, env k = some v → v ≠ [] → loadEnvFile reads env k = some v) ∧
    (∀ k, loadEnvFile reads env k ≠ env k →
      Getenv env k = [] ∧
      ∃ data line v, discoveredFile reads = some data ∧ line ∈ splitLines data ∧
        parseEnvLine line = some (k, v) ∧ loadEnvFile reads env k = some v) ∧
    (∀ raw key val, parseEnvLine raw = some (key, val) →
      (Getenv env key ≠ [] → envLine env raw = env) ∧
      (Getenv env key = [] → Char.ofNat 0 ∉ key → Char.ofNat 0 ∉ val →
        envLine env raw key = some val ∧ ∀ k, k ≠ key → envLine env raw k = env k)) := by
  have hchange : ∀ k, loadEnvFile reads env k ≠ env k →
      Getenv env k = [] ∧
      ∃ data line v, discoveredFile reads = some data ∧ line ∈ splitLines data ∧
        parseEnvLine line = some (k, v) ∧ loadEnvFile reads env k = some v := by
    intro k hne
    rw [loadEnvFile_eq] at hne ⊢
    cases hd : discoveredFile reads with
    | none => rw [hd] at hne; exact absurd rfl hne
    | some data =>
      rw [hd] at hne
      rcases foldl_envLine (splitLines data) env k with h | ⟨hg, line, v, hm, hp, hv⟩
      · exact absurd h hne
      · exact ⟨hg, data, line, v, rfl, hm, hp, hv⟩
  refine ⟨?_, hchange, ?_⟩
  · intro k v hk hv
    by_contra hne
    have h1 : loadEnvFile reads env k ≠ env k := by rw [hk]; exact hne
    have h2 := (hchange k h1).1
    unfold Getenv at h2
    rw [hk] at h2
    exact hv h2
  · intro raw key val hp
    constructor
    · intro hg; simp [envLine, hp, hg]
    · intro hg hk0 hv0
      obtain ⟨hk1, hk2⟩ := parseEnvLine_key raw key val hp
      have e : envLine env raw = fun k => if k = key then some val else env k := by
        simp [envLine, hp, hg, Setenv, hk0, hv0, hk1, hk2]
      rw [e]
      exact ⟨by simp, fun k hk => by simp [hk]⟩

/-- A variable with a non-empty value that the file names too keeps its
value. -/
theorem loadEnvFile_keeps_nonempty_witness :
    loadEnvFile [none, some sampleDotEnv] sampleEnv "API_HOST".toList =
      some "example.org".toList :=
  (loadEnvFile_keeps_nonempty [none, some sampleDotEnv] sampleEnv).1
    "API_HOST".toList "example.org".toList (by decide) (by decide)

/-- C10, the code at the failing input: `GEMINI_API_KEY` is present in the
environment, with the empty string as its value, and after `loadEnvFile` its
value is the one of the file. The guard `os.Getenv(key) == ""` does not tell a
variable that is set to the empty string from one that is not set, so the
variable is overridden, against the claim and against the comment of
`getAPIKey` ("won't override existing env vars"). -/
theorem loadEnvFile_overrides_empty :
    sampleEnv "GEMINI_API_KEY".toList = some [] ∧
    loadEnvFile [none, some sampleDotEnv] sampleEnv "GEMINI_API_KEY".toList =
      some "abc".toList ∧
    loadEnvFile [none, some sampleDotEnv] sampleEnv "GEMINI_API_KEY".toList ≠
      sampleEnv "GEMINI_API_KEY".toList := by
  decide

end NanoBanana
